import Mathlib

/-!
Verification of the Python_Pandas-Data-Analysis-Portfolio repository.

The cleaning pipeline of src/data_Cleaner.py (class CustomerDataCleaner) is
embedded shallowly: a pandas DataFrame becomes a list of column names plus a
list of rows, each cell an optional string (none models NaN); each cleaner
method becomes a function on a state holding the optional table and the
cleaning-report counters.  The wrappers of src/webscraper.py and load_data
are embedded with their fallible library calls abstracted as Except values.
-/

namespace DataPortfolio

/-- Python strings are modelled as lists of characters. -/
abbrev Str := List Char

/-- A DataFrame cell: none models NaN, some s a string value. -/
abbrev Cell := Option Str

/-- A pandas DataFrame: column names plus rows of cells. -/
structure DF where
  cols : List Str
  rows : List (List Cell)
deriving DecidableEq

/-- Lower-casing of a string, as Python str.lower for ASCII. -/
def lowerS (s : Str) : Str := s.map Char.toLower

/-- Whether pat occurs at the start of s. -/
def leadsWith : Str → Str → Bool
  | [], _ => true
  | _ :: _, [] => false
  | a :: as, b :: bs => a == b && leadsWith as bs

/-- Whether pat occurs as a contiguous substring of s (Python in-operator). -/
def containsSub (pat : Str) : Str → Bool
  | [] => pat.isEmpty
  | c :: rest => leadsWith pat (c :: rest) || containsSub pat rest

/-- Python str.replace pat -> repl, left to right, non-overlapping. -/
def replaceSub (pat repl : Str) : Str → Str
  | [] => []
  | c :: rest =>
    if h : pat ≠ [] ∧ leadsWith pat (c :: rest) = true then
      repl ++ replaceSub pat repl ((c :: rest).drop pat.length)
    else
      c :: replaceSub pat repl rest
termination_by s => s.length
decreasing_by
  · simp only [List.length_drop, List.length_cons]
    have hp : 1 ≤ pat.length := by
      cases hpat : pat with
      | nil => exact absurd hpat h.1
      | cons x xs => simp
    omega
  · simp

/-- Python str.strip with an explicit character set: both ends. -/
def stripChars (cs : Str) (s : Str) : Str :=
  ((s.dropWhile cs.contains).reverse.dropWhile cs.contains).reverse

/-- Python str.strip (): strip whitespace from both ends. -/
def stripWs (s : Str) : Str :=
  ((s.dropWhile Char.isWhitespace).reverse.dropWhile Char.isWhitespace).reverse

/-- pandas Series.str.strip maps NaN to NaN. -/
def stripCellWs : Cell → Cell := Option.map stripWs

/-- Python str.title for ASCII: a letter is upper-cased when the previous
character is not a letter, lower-cased otherwise. -/
def titleAux : Bool → Str → Str
  | _, [] => []
  | prevAlpha, c :: cs =>
    (if c.isAlpha then (if prevAlpha then c.toLower else c.toUpper) else c) ::
      titleAux c.isAlpha cs

/-- Python str.title on a whole string. -/
def titleS (s : Str) : Str := titleAux false s

/-- pandas astype str: NaN prints as the string nan. -/
def cellAsStr (c : Cell) : Str :=
  match c with
  | none => ("nan").toList
  | some s => s

/-- The index of the first column with a given name. -/
def colIdx (c : Str) : List Str → Option Nat
  | [] => none
  | x :: xs => if x == c then some 0 else (colIdx c xs).map (fun i => i + 1)

/-- Looks a cell up in a row by column name (first matching column). -/
def lookupCell (cols : List Str) (c : Str) (r : List Cell) : Cell :=
  match colIdx c cols with
  | some i => r.getD i none
  | none => none

/-- The values of a named column, if the column exists. -/
def getCol (df : DF) (c : Str) : Option (List Cell) :=
  match colIdx c df.cols with
  | some i => some (df.rows.map (fun r => r.getD i none))
  | none => none

/-- pandas column assignment df[c] = vs: overwrites an existing column or
appends a new one at the right end. -/
def setColVals (df : DF) (c : Str) (vs : List Cell) : DF :=
  match colIdx c df.cols with
  | some i => { df with rows := List.zipWith (fun r v => r.set i v) df.rows vs }
  | none => { cols := df.cols ++ [c], rows := List.zipWith (fun r v => r ++ [v]) df.rows vs }

/-- Applies an elementwise function to one named column, as the chained
pandas Series operations of the cleaner do. -/
def mapCol (df : DF) (c : Str) (f : Cell → Cell) : DF :=
  match colIdx c df.cols with
  | some i => { df with rows := df.rows.map (fun r => r.set i (f (r.getD i none))) }
  | none => df

/-- Applies an elementwise function to each of a list of named columns. -/
def mapCols (df : DF) (ns : List Str) (f : Cell → Cell) : DF :=
  ns.foldl (fun d c => mapCol d c f) df

/-- pandas df.drop(columns=names): removes every column whose name is in
names, and the corresponding entry of every row. -/
def dropCols (df : DF) (names : List Str) : DF :=
  { cols := df.cols.filter (fun c => !(names.contains c)),
    rows := df.rows.map (fun r =>
      ((df.cols.zip r).filter (fun p => !(names.contains p.1))).map Prod.snd) }

/-- Every row has exactly one cell per column. -/
def Aligned (df : DF) : Prop := ∀ r ∈ df.rows, r.length = df.cols.length

instance (df : DF) : Decidable (Aligned df) := by
  unfold Aligned
  infer_instance

/-- The cleaning report of CustomerDataCleaner. -/
structure Report where
  original_rows : Nat
  duplicates_removed : Nat
  invalid_phones_removed : Nat
  do_not_contact_removed : Nat
  final_rows : Nat
deriving DecidableEq

/-- The report as initialised in CustomerDataCleaner.__init__. -/
def reportInit : Report :=
  { original_rows := 0, duplicates_removed := 0, invalid_phones_removed := 0,
    do_not_contact_removed := 0, final_rows := 0 }

/-- The cleaner state: self.df (None before loading) and the report. -/
structure CState where
  df : Option DF
  report : Report
deriving DecidableEq

/-! Column-name constants appearing literally in data_Cleaner.py. -/

/-- The name-column candidates of clean_names. -/
def nameColNames : List Str :=
  [("First_Name").toList, ("Last_Name").toList, ("first_name").toList, ("last_name").toList]

/-- The phone-column candidates of standardize_phone_numbers. -/
def phoneColNames : List Str :=
  [("Phone_Number").toList, ("phone_number").toList, ("Phone").toList, ("phone").toList]

/-- The address-column candidates of parse_addresses, in search order. -/
def addrColNames : List Str :=
  [("Address").toList, ("address").toList, ("Full_Address").toList]

/-- The Street_Address column name. -/
def streetN : Str := ("Street_Address").toList

/-- The State column name. -/
def stateN : Str := ("State").toList

/-- The Zip_Code column name. -/
def zipN : Str := ("Zip_Code").toList

/-- The Address column name used by cleanup_columns. -/
def addressN : Str := ("Address").toList

/-- The whole-cell missing-data markers of handle_missing_values. -/
def missingPatterns : List Str :=
  [("N/a").toList, ("N/A").toList, ("null").toList, ("NULL").toList,
   ("None").toList, ("NONE").toList]

/-! The cleaning steps at DataFrame level. -/

/-- pandas drop_duplicates: keeps the first occurrence of each row value,
in order; seen accumulates rows already kept. -/
def keepFirstAux (seen : List (List Cell)) : List (List Cell) → List (List Cell)
  | [] => []
  | r :: rest =>
    if seen.contains r then keepFirstAux seen rest
    else r :: keepFirstAux (r :: seen) rest

/-- remove_duplicates at table level: self.df.drop_duplicates(). -/
def dedupDF (df : DF) : DF := { df with rows := keepFirstAux [] df.rows }

/-- The default columns_to_remove of remove_unnecessary_columns: columns
whose lower-cased name contains not_useful or unused. -/
def unnecessaryCols (df : DF) : List Str :=
  df.cols.filter (fun c =>
    containsSub (("not_useful").toList) (lowerS c) || containsSub (("unused").toList) (lowerS c))

/-- remove_unnecessary_columns with the default argument. -/
def removeUnnecessaryDF (df : DF) : DF :=
  let toRemove := unnecessaryCols df
  let existing := toRemove.filter (fun c => df.cols.contains c)
  if existing.isEmpty then df else dropCols df existing

/-- The per-cell transformation of clean_names: astype str, strip the
character set 123./_-, then title-case. -/
def nameCellStep (c : Cell) : Cell :=
  some (titleS (stripChars (("123./_-").toList) (cellAsStr c)))

/-- clean_names at table level. -/
def cleanNamesDF (df : DF) : DF :=
  mapCols df (nameColNames.filter (fun c => df.cols.contains c)) nameCellStep

/-- The hyphenation of a ten-digit string used by standardize_phone_numbers:
slices [:3], [3:6], [6:10] joined by hyphens. -/
def fmtPhone (d : Str) : Str :=
  d.take 3 ++ ('-' :: ((d.drop 3).take 3 ++ ('-' :: (d.drop 6).take 4)))

/-- The per-cell transformation of standardize_phone_numbers: astype str,
drop the Na-- and nan-- artifacts, keep only digits, hyphenate ten-digit
values, and blank every other non-empty value. -/
def phoneCellStep (c : Cell) : Cell :=
  let s1 := replaceSub (("Na--").toList) [] (cellAsStr c)
  let s2 := replaceSub (("nan--").toList) [] s1
  let d := s2.filter Char.isDigit
  let v := if d.length = 10 then fmtPhone d else d
  some (if d.length ≠ 10 ∧ v ≠ [] then [] else v)

/-- standardize_phone_numbers at table level. -/
def phonesDF (df : DF) : DF :=
  mapCols df (phoneColNames.filter (fun c => df.cols.contains c)) phoneCellStep

/-- Splits a string at commas, with at most n splits (Python split with
maxsplit), so at most n+1 parts. -/
def splitCommaN : Nat → Str → List Str
  | 0, s => [s]
  | Nat.succ n, s =>
    let a := s.takeWhile (fun c => c ≠ ',')
    match s.dropWhile (fun c => c ≠ ',') with
    | [] => [s]
    | _ :: t => a :: splitCommaN n t

/-- One row of the expanded split of the address column: a NaN address
yields the single part NaN, a string yields its comma parts. -/
def rowParts (cols : List Str) (ac : Str) (r : List Cell) : List Cell :=
  match lookupCell cols ac r with
  | none => [none]
  | some s => (splitCommaN 2 s).map some

/-- The expanded comma-split of the address column, one part list per row. -/
def addrParts (df : DF) (ac : Str) : List (List Cell) :=
  df.rows.map (rowParts df.cols ac)

/-- The number of columns of the expanded split: the maximum part count. -/
def maxParts (df : DF) (ac : Str) : Nat :=
  (addrParts df ac).foldl (fun m l => max m l.length) 0

/-- The Street_Address values: trimmed first parts. -/
def streetVals (df : DF) (ac : Str) : List Cell :=
  (addrParts df ac).map (fun l => stripCellWs (l.getD 0 none))

/-- The State values: trimmed second parts (NaN when the row had none). -/
def stateVals (df : DF) (ac : Str) : List Cell :=
  (addrParts df ac).map (fun l => stripCellWs (l.getD 1 none))

/-- The Zip_Code values: trimmed third parts when the split has more than
two columns, the empty string for every row otherwise. -/
def zipVals (df : DF) (ac : Str) : List Cell :=
  if 2 < maxParts df ac then (addrParts df ac).map (fun l => stripCellWs (l.getD 2 none))
  else df.rows.map (fun _ => some [])

/-- parse_addresses at table level: finds the first address column, splits
it at up to two commas, and when the split yields at least two columns
assigns Street_Address, State and Zip_Code. -/
def parseAddressesDF (df : DF) : DF :=
  match addrColNames.find? (fun c => df.cols.contains c) with
  | none => df
  | some ac =>
    if 2 ≤ maxParts df ac then
      setColVals (setColVals (setColVals df streetN (streetVals df ac))
        stateN (stateVals df ac)) zipN (zipVals df ac)
    else df

/-- The boolean-flag columns of standardize_boolean_fields: name contains
do_not_contact, paying_customer or active (case-insensitively). -/
def booleanCols (df : DF) : List Str :=
  df.cols.filter (fun c =>
    containsSub (("do_not_contact").toList) (lowerS c) ||
    containsSub (("paying_customer").toList) (lowerS c) ||
    containsSub (("active").toList) (lowerS c))

/-- The per-cell transformation of standardize_boolean_fields: astype str
then the four substring replacements, in order. -/
def boolCellStep (c : Cell) : Cell :=
  some (replaceSub (("FALSE").toList) (("N").toList)
    (replaceSub (("TRUE").toList) (("Y").toList)
      (replaceSub (("No").toList) (("N").toList)
        (replaceSub (("Yes").toList) (("Y").toList) (cellAsStr c)))))

/-- standardize_boolean_fields at table level. -/
def booleanDF (df : DF) : DF :=
  mapCols df (booleanCols df) boolCellStep

/-- The per-cell transformation of handle_missing_values: fillna with the
empty string, then replace each whole-cell missing marker by it. -/
def missingCellStep (c : Cell) : Cell :=
  match c with
  | none => some []
  | some s => if missingPatterns.contains s then some [] else some s

/-- handle_missing_values at table level: applied to every cell. -/
def missingDF (df : DF) : DF :=
  { df with rows := df.rows.map (List.map missingCellStep) }

/-- The do-not-contact filter columns of apply_business_rules. -/
def dncColsOf (df : DF) : List Str :=
  df.cols.filter (fun c => containsSub (("do_not_contact").toList) (lowerS c))

/-- The phone filter columns of apply_business_rules. -/
def phoneColsOf (df : DF) : List Str :=
  df.cols.filter (fun c => containsSub (("phone").toList) (lowerS c))

/-- One rule of apply_business_rules: filter the rows through one column
after another, keeping rows whose cell satisfies keep, and count the rows
each column removed (the += accumulation). -/
def filterRowsByCols (cols : List Str) (keep : Cell → Bool) :
    List Str → List (List Cell) → List (List Cell) × Nat
  | [], rows => (rows, 0)
  | n :: ns, rows =>
    let rows1 := rows.filter (fun r => keep (lookupCell cols n r))
    let rec2 := filterRowsByCols cols keep ns rows1
    (rec2.1, (rows.length - rows1.length) + rec2.2)

/-- The keep-predicate of the do-not-contact rule: cell not equal Y
(NaN compares unequal, so NaN rows are kept). -/
def keepDnc (c : Cell) : Bool := !(c == some (("Y").toList))

/-- The keep-predicate of the phone rule: cell not equal the empty string
(NaN compares unequal, so NaN rows are kept). -/
def keepPhone (c : Cell) : Bool := !(c == some ([] : Str))

/-- apply_business_rules at table level: the filtered table, the count of
rows removed by the do-not-contact rule, and the count removed by the
phone rule. -/
def applyBusinessRulesDF (df : DF) : DF × Nat × Nat :=
  let dnc := filterRowsByCols df.cols keepDnc (dncColsOf df) df.rows
  let ph := filterRowsByCols df.cols keepPhone (phoneColsOf df) dnc.1
  ({ df with rows := ph.1 }, dnc.2, ph.2)

/-- The count of rows whose Zip_Code strips to the empty string (NaN rows
compare unequal and are not counted). -/
def emptyZipCount (df : DF) : Nat :=
  df.rows.countP (fun r =>
    match lookupCell df.cols zipN r with
    | some s => stripWs s == []
    | none => false)

/-- cleanup_columns at table level: drop Address once parsed, and drop
Zip_Code when more than eighty percent of its values strip to empty. -/
def cleanupColumnsDF (df : DF) : DF :=
  let rm1 : List Str :=
    if df.cols.contains streetN && df.cols.contains addressN then [addressN] else []
  let rm2 : List Str :=
    if df.cols.contains zipN && decide (8 * df.rows.length < 10 * emptyZipCount df)
    then [zipN] else []
  let toRemove := rm1 ++ rm2
  if toRemove.isEmpty then df else dropCols df toRemove

/-! The cleaning steps at cleaner-state level: each method returns early
when self.df is None, leaving the state untouched. -/

/-- CustomerDataCleaner.remove_duplicates. -/
def remove_duplicates (s : CState) : CState :=
  match s.df with
  | none => s
  | some d =>
    let d1 := dedupDF d
    { df := some d1,
      report := { s.report with duplicates_removed := d.rows.length - d1.rows.length } }

/-- CustomerDataCleaner.remove_unnecessary_columns with default argument. -/
def remove_unnecessary_columns (s : CState) : CState :=
  match s.df with
  | none => s
  | some d => { s with df := some (removeUnnecessaryDF d) }

/-- CustomerDataCleaner.clean_names. -/
def clean_names (s : CState) : CState :=
  match s.df with
  | none => s
  | some d => { s with df := some (cleanNamesDF d) }

/-- CustomerDataCleaner.standardize_phone_numbers. -/
def standardize_phone_numbers (s : CState) : CState :=
  match s.df with
  | none => s
  | some d => { s with df := some (phonesDF d) }

/-- CustomerDataCleaner.parse_addresses. -/
def parse_addresses (s : CState) : CState :=
  match s.df with
  | none => s
  | some d => { s with df := some (parseAddressesDF d) }

/-- CustomerDataCleaner.standardize_boolean_fields. -/
def standardize_boolean_fields (s : CState) : CState :=
  match s.df with
  | none => s
  | some d => { s with df := some (booleanDF d) }

/-- CustomerDataCleaner.handle_missing_values. -/
def handle_missing_values (s : CState) : CState :=
  match s.df with
  | none => s
  | some d => { s with df := some (missingDF d) }

/-- CustomerDataCleaner.apply_business_rules: filters rows and adds the
removal counts to the existing counters. -/
def apply_business_rules (s : CState) : CState :=
  match s.df with
  | none => s
  | some d =>
    let res := applyBusinessRulesDF d
    { df := some res.1,
      report := { s.report with
        do_not_contact_removed := s.report.do_not_contact_removed + res.2.1,
        invalid_phones_removed := s.report.invalid_phones_removed + res.2.2 } }

/-- CustomerDataCleaner.cleanup_columns. -/
def cleanup_columns (s : CState) : CState :=
  match s.df with
  | none => s
  | some d => { s with df := some (cleanupColumnsDF d) }

/-- CustomerDataCleaner.finalize_data: reset_index is invisible in the
model; final_rows is set to the current row count. -/
def finalize_data (s : CState) : CState :=
  match s.df with
  | none => s
  | some d => { s with report := { s.report with final_rows := d.rows.length } }

/-- The state after a successful load_data: self.df set and original_rows
recorded, all other counters as __init__ left them. -/
def loadState (df : DF) : CState :=
  { df := some df, report := { reportInit with original_rows := df.rows.length } }

/-- The ten cleaning steps of clean_all, in source order. -/
def pipelineSteps : List (CState → CState) :=
  [remove_duplicates, remove_unnecessary_columns, clean_names,
   standardize_phone_numbers, parse_addresses, standardize_boolean_fields,
   handle_missing_values, apply_business_rules, cleanup_columns, finalize_data]

/-- CustomerDataCleaner.clean_all after a successful load: the ten steps
written sequentially as in the source. -/
def clean_all (df : DF) : CState :=
  let s0 := loadState df
  let s1 := remove_duplicates s0
  let s2 := remove_unnecessary_columns s1
  let s3 := clean_names s2
  let s4 := standardize_phone_numbers s3
  let s5 := parse_addresses s4
  let s6 := standardize_boolean_fields s5
  let s7 := handle_missing_values s6
  let s8 := apply_business_rules s7
  let s9 := cleanup_columns s8
  finalize_data s9

/-- The trace of cleaner states along a clean_all run, for the cumulative
counter claims. -/
def cleanTrace (df : DF) : List CState :=
  List.scanl (fun s f => f s) (loadState df) pipelineSteps

/-- The seven row-preserving steps before apply_business_rules, composed
at table level. -/
def dfMiddle (df : DF) : DF :=
  missingDF (booleanDF (parseAddressesDF (phonesDF (cleanNamesDF
    (removeUnnecessaryDF (dedupDF df))))))

/-! The external-collaborator wrappers of webscraper.py and load_data,
with the fallible library calls abstracted as Except values. -/

/-- An HTTP response as requests returns it: status code and body text. -/
structure HttpResponse where
  status : Nat
  text : Str
deriving DecidableEq

/-- A parsed HTML document (BeautifulSoup construction is total). -/
structure Soup where
  text : Str
deriving DecidableEq

/-- FortuneCompanyScraper.fetch_webpage: returns the parsed page, or None
when requests.get raises or raise_for_status raises (status 400-599). -/
def fetch_webpage (resp : Except Unit HttpResponse) : Option Soup :=
  match resp with
  | .error _ => none
  | .ok r => if 400 ≤ r.status ∧ r.status < 600 then none else some (Soup.mk r.text)

/-- Whether the HTTP request of fetch_webpage raises: requests.get raises,
or raise_for_status raises on a 4xx or 5xx status. -/
def httpRaised (resp : Except Unit HttpResponse) : Bool :=
  match resp with
  | .error _ => true
  | .ok r => decide (400 ≤ r.status) && decide (r.status < 600)

/-- FortuneCompanyScraper.save_to_csv: true unless the try body (directory
creation plus DataFrame.to_csv) raises. -/
def save_to_csv (writeResult : Except Unit Unit) : Bool :=
  match writeResult with
  | .error _ => false
  | .ok _ => true

/-- os.path basename: everything after the last slash. -/
def basenameOf (p : Str) : Str :=
  (p.reverse.takeWhile (fun c => c ≠ '/')).reverse

/-- os.path.splitext extension: from the last dot of the basename, where
leading dots do not begin an extension. -/
def extOf (p : Str) : Str :=
  let core := (basenameOf p).dropWhile (fun c => c = '.')
  if core.contains '.' then
    '.' :: (core.reverse.takeWhile (fun c => c ≠ '.')).reverse
  else []

/-- CustomerDataCleaner.load_data: dispatches on the lower-cased file
extension, stores the table and original_rows on success, and returns
False when the chosen reader raises or the extension is unsupported
(the ValueError is caught by the same except block). -/
def load_data (filepath : Str) (readExcel readCsv : Except Unit DF) (s : CState) :
    CState × Bool :=
  let ext := lowerS (extOf filepath)
  if ext = (".xlsx").toList then
    match readExcel with
    | .error _ => (s, false)
    | .ok d =>
      ({ df := some d, report := { s.report with original_rows := d.rows.length } }, true)
  else if ext = (".csv").toList then
    match readCsv with
    | .error _ => (s, false)
    | .ok d =>
      ({ df := some d, report := { s.report with original_rows := d.rows.length } }, true)
  else (s, false)

/-! Basic lemmas about column lookup and row surgery. -/

theorem colIdx_lt {c : Str} : ∀ {cols : List Str} {i : Nat},
    colIdx c cols = some i → i < cols.length := by
  intro cols
  induction cols with
  | nil => intro i h; simp [colIdx] at h
  | cons x xs ih =>
    intro i h
    rw [colIdx] at h
    by_cases hx : (x == c) = true
    · rw [if_pos hx] at h
      injection h with h1
      subst h1
      simp
    · rw [if_neg hx] at h
      cases hx2 : colIdx c xs with
      | none => rw [hx2] at h; simp at h
      | some j =>
        rw [hx2] at h
        simp only [Option.map_some'] at h
        injection h with h1
        subst h1
        have := ih hx2
        simp only [List.length_cons]
        omega

theorem colIdx_getD {c : Str} : ∀ {cols : List Str} {i : Nat},
    colIdx c cols = some i → cols.getD i [] = c := by
  intro cols
  induction cols with
  | nil => intro i h; simp [colIdx] at h
  | cons x xs ih =>
    intro i h
    rw [colIdx] at h
    by_cases hx : (x == c) = true
    · rw [if_pos hx] at h
      injection h with h1
      subst h1
      simpa using hx
    · rw [if_neg hx] at h
      cases hx2 : colIdx c xs with
      | none => rw [hx2] at h; simp at h
      | some j =>
        rw [hx2] at h
        simp only [Option.map_some'] at h
        injection h with h1
        subst h1
        simpa using ih hx2

theorem getD_set_self (l : List Cell) (i : Nat) (v : Cell) (h : i < l.length) :
    (l.set i v).getD i none = v := by
  simp [List.getD_eq_getElem?_getD, List.getElem?_set_self h]

theorem getD_set_ne (l : List Cell) {i j : Nat} (v : Cell) (h : i ≠ j) :
    (l.set i v).getD j none = l.getD j none := by
  simp [List.getD_eq_getElem?_getD, List.getElem?_set_ne h]

theorem getD_append_lt (l t : List Cell) (i : Nat) (h : i < l.length) :
    (l ++ t).getD i none = l.getD i none := by
  simp [List.getD_eq_getElem?_getD, List.getElem?_append, h]

theorem getD_append_len (l : List Cell) (v : Cell) :
    (l ++ [v]).getD l.length none = v := by
  induction l with
  | nil => simp
  | cons x xs ih => simp [ih]

/-! Row-count behaviour of the individual steps. -/

theorem mapCol_rows_length (df : DF) (c : Str) (f : Cell → Cell) :
    (mapCol df c f).rows.length = df.rows.length := by
  rw [mapCol]
  cases colIdx c df.cols with
  | none => rfl
  | some i => simp

theorem mapCol_cols (df : DF) (c : Str) (f : Cell → Cell) :
    (mapCol df c f).cols = df.cols := by
  rw [mapCol]
  cases colIdx c df.cols with
  | none => rfl
  | some i => rfl

theorem mapCols_rows_length (ns : List Str) : ∀ (df : DF) (f : Cell → Cell),
    (mapCols df ns f).rows.length = df.rows.length := by
  induction ns with
  | nil => intro df f; rfl
  | cons n ns ih =>
    intro df f
    show (mapCols (mapCol df n f) ns f).rows.length = df.rows.length
    rw [ih, mapCol_rows_length]

theorem mapCols_cols (ns : List Str) : ∀ (df : DF) (f : Cell → Cell),
    (mapCols df ns f).cols = df.cols := by
  induction ns with
  | nil => intro df f; rfl
  | cons n ns ih =>
    intro df f
    show (mapCols (mapCol df n f) ns f).cols = df.cols
    rw [ih, mapCol_cols]

theorem setColVals_rows_length (df : DF) (c : Str) (vs : List Cell)
    (h : vs.length = df.rows.length) :
    (setColVals df c vs).rows.length = df.rows.length := by
  rw [setColVals]
  cases colIdx c df.cols with
  | none => simp [List.length_zipWith, h]
  | some i => simp [List.length_zipWith, h]

theorem dropCols_rows_length (df : DF) (names : List Str) :
    (dropCols df names).rows.length = df.rows.length := by
  simp [dropCols]

theorem dedupDF_rows_le (df : DF) :
    (dedupDF df).rows.length ≤ df.rows.length := by
  rw [dedupDF]
  show (keepFirstAux [] df.rows).length ≤ df.rows.length
  generalize [] = seen
  induction df.rows generalizing seen with
  | nil => simp [keepFirstAux]
  | cons r rest ih =>
    rw [keepFirstAux]
    by_cases hr : seen.contains r = true
    · rw [if_pos hr]
      exact Nat.le_trans (ih seen) (Nat.le_succ _)
    · rw [if_neg hr]
      simpa using ih (r :: seen)

theorem removeUnnecessaryDF_rows_length (df : DF) :
    (removeUnnecessaryDF df).rows.length = df.rows.length := by
  rw [removeUnnecessaryDF]
  split
  · rfl
  · exact dropCols_rows_length _ _

theorem cleanNamesDF_rows_length (df : DF) :
    (cleanNamesDF df).rows.length = df.rows.length :=
  mapCols_rows_length _ df _

theorem phonesDF_rows_length (df : DF) :
    (phonesDF df).rows.length = df.rows.length :=
  mapCols_rows_length _ df _

theorem streetVals_length (df : DF) (ac : Str) :
    (streetVals df ac).length = df.rows.length := by
  simp [streetVals, addrParts]

theorem stateVals_length (df : DF) (ac : Str) :
    (stateVals df ac).length = df.rows.length := by
  simp [stateVals, addrParts]

theorem zipVals_length (df : DF) (ac : Str) :
    (zipVals df ac).length = df.rows.length := by
  rw [zipVals]
  by_cases h : 2 < maxParts df ac
  · simp [h, addrParts]
  · simp [h]

theorem parseAddressesDF_rows_length (df : DF) :
    (parseAddressesDF df).rows.length = df.rows.length := by
  rw [parseAddressesDF]
  cases addrColNames.find? (fun c => df.cols.contains c) with
  | none => rfl
  | some ac =>
    dsimp only
    by_cases h : 2 ≤ maxParts df ac
    · rw [if_pos h]
      have h1 : (setColVals df streetN (streetVals df ac)).rows.length = df.rows.length :=
        setColVals_rows_length _ _ _ (streetVals_length df ac)
      have h2 : (setColVals (setColVals df streetN (streetVals df ac)) stateN
          (stateVals df ac)).rows.length = df.rows.length := by
        rw [setColVals_rows_length _ _ _ (by rw [stateVals_length, h1]), h1]
      rw [setColVals_rows_length _ _ _ (by rw [zipVals_length, h2]), h2]
    · rw [if_neg h]

theorem booleanDF_rows_length (df : DF) :
    (booleanDF df).rows.length = df.rows.length :=
  mapCols_rows_length _ df _

theorem missingDF_rows_length (df : DF) :
    (missingDF df).rows.length = df.rows.length := by
  simp [missingDF]

theorem cleanupColumnsDF_rows_length (df : DF) :
    (cleanupColumnsDF df).rows.length = df.rows.length := by
  rw [cleanupColumnsDF]
  repeat' split
  all_goals first | rfl | exact dropCols_rows_length _ _

/-! Behaviour of apply_business_rules. -/

theorem filterRowsByCols_fst (cols : List Str) (keep : Cell → Bool) :
    ∀ (ns : List Str) (rows : List (List Cell)),
    (filterRowsByCols cols keep ns rows).1 =
      rows.filter (fun r => ns.all (fun n => keep (lookupCell cols n r))) := by
  intro ns
  induction ns with
  | nil => intro rows; simp [filterRowsByCols]
  | cons n ns ih =>
    intro rows
    rw [filterRowsByCols]
    dsimp only
    rw [ih, List.filter_filter]
    exact List.filter_congr (fun r hr => by simp [List.all_cons, Bool.and_comm])

theorem filterRowsByCols_count (cols : List Str) (keep : Cell → Bool) :
    ∀ (ns : List Str) (rows : List (List Cell)),
    (filterRowsByCols cols keep ns rows).2 + (filterRowsByCols cols keep ns rows).1.length
      = rows.length := by
  intro ns
  induction ns with
  | nil => intro rows; simp [filterRowsByCols]
  | cons n ns ih =>
    intro rows
    rw [filterRowsByCols]
    dsimp only
    have h1 : (rows.filter (fun r => keep (lookupCell cols n r))).length ≤ rows.length :=
      List.length_filter_le _ _
    have h2 := ih (rows.filter (fun r => keep (lookupCell cols n r)))
    omega

theorem applyBusinessRulesDF_eq (d : DF) :
    applyBusinessRulesDF d =
      ({ d with rows := (filterRowsByCols d.cols keepPhone (phoneColsOf d)
          (filterRowsByCols d.cols keepDnc (dncColsOf d) d.rows).1).1 },
       (filterRowsByCols d.cols keepDnc (dncColsOf d) d.rows).2,
       (filterRowsByCols d.cols keepPhone (phoneColsOf d)
          (filterRowsByCols d.cols keepDnc (dncColsOf d) d.rows).1).2) := rfl

/-- The row predicate that survives apply_business_rules: no do-not-contact
column holds Y and no phone column holds the empty string. -/
def survivesRules (df : DF) (r : List Cell) : Bool :=
  (dncColsOf df).all (fun c => keepDnc (lookupCell df.cols c r)) &&
  (phoneColsOf df).all (fun c => keepPhone (lookupCell df.cols c r))

theorem applyBusinessRulesDF_rows (df : DF) :
    (applyBusinessRulesDF df).1.rows = df.rows.filter (survivesRules df) := by
  rw [applyBusinessRulesDF_eq]
  dsimp only
  rw [filterRowsByCols_fst, filterRowsByCols_fst, List.filter_filter]
  exact List.filter_congr (fun r hr => by simp [survivesRules, Bool.and_comm])

/-! Unfolding clean_all into its table-level composition. -/

theorem clean_all_eq (df : DF) :
    clean_all df =
      ⟨some (cleanupColumnsDF (applyBusinessRulesDF (dfMiddle df)).1),
       { original_rows := df.rows.length,
         duplicates_removed := df.rows.length - (dedupDF df).rows.length,
         invalid_phones_removed := 0 + (applyBusinessRulesDF (dfMiddle df)).2.2,
         do_not_contact_removed := 0 + (applyBusinessRulesDF (dfMiddle df)).2.1,
         final_rows := (cleanupColumnsDF (applyBusinessRulesDF (dfMiddle df)).1).rows.length }⟩ :=
  rfl

theorem dfMiddle_rows_length (df : DF) :
    (dfMiddle df).rows.length = (dedupDF df).rows.length := by
  rw [dfMiddle, missingDF_rows_length, booleanDF_rows_length, parseAddressesDF_rows_length,
    phonesDF_rows_length, cleanNamesDF_rows_length, removeUnnecessaryDF_rows_length]

/-- C1: after a full clean_all run the cleaning report satisfies the
accounting identity original_rows = final_rows + duplicates_removed +
do_not_contact_removed + invalid_phones_removed.  The sequential filters
never count a row twice, so the identity holds unconditionally, in
particular under the non-overlap proviso of the claim. -/
theorem clean_all_accounting (df : DF) :
    (clean_all df).report.original_rows =
      (clean_all df).report.final_rows + (clean_all df).report.duplicates_removed +
      (clean_all df).report.do_not_contact_removed +
      (clean_all df).report.invalid_phones_removed := by
  rw [clean_all_eq]
  dsimp only
  have hd : (dedupDF df).rows.length ≤ df.rows.length := dedupDF_rows_le df
  have hm : (dfMiddle df).rows.length = (dedupDF df).rows.length := dfMiddle_rows_length df
  have hb1 := filterRowsByCols_count (dfMiddle df).cols keepDnc (dncColsOf (dfMiddle df))
    (dfMiddle df).rows
  have hb2 := filterRowsByCols_count (dfMiddle df).cols keepPhone (phoneColsOf (dfMiddle df))
    (filterRowsByCols (dfMiddle df).cols keepDnc (dncColsOf (dfMiddle df)) (dfMiddle df).rows).1
  have hc : (cleanupColumnsDF (applyBusinessRulesDF (dfMiddle df)).1).rows.length =
      (applyBusinessRulesDF (dfMiddle df)).1.rows.length :=
    cleanupColumnsDF_rows_length _
  rw [applyBusinessRulesDF_eq] at hc ⊢
  dsimp only at hc ⊢
  omega

/-- C4: clean_all executes exactly the ten cleaning steps in their fixed
source order: it equals the left fold of the ordered step list over the
loaded state. -/
theorem clean_all_fixed_order (df : DF) :
    clean_all df = pipelineSteps.foldl (fun s f => f s) (loadState df) := rfl

/-- C8: the cleaning stage is deterministic and isolated: clean_all is a
pure function of the loaded table, so two runs from equal tables give
equal cleaned tables and equal cleaning reports. -/
theorem clean_all_deterministic (df1 df2 : DF) (h : df1 = df2) :
    clean_all df1 = clean_all df2 := by rw [h]

/-- A small concrete customer table used by the witnesses. -/
def exampleDF : DF :=
  { cols := [("Phone_Number").toList, ("Do_Not_Contact").toList, ("Address").toList],
    rows := [
      [some (("123-545-5421").toList), some (("Yes").toList),
       some (("123 Main St, NY, 10001").toList)],
      [some (("nope").toList), some (("No").toList), some (("44 Oak Ave, CA").toList)],
      [none, none, none] ] }

/-- Witness for C8 at the concrete example table. -/
theorem clean_all_deterministic_witness : clean_all exampleDF = clean_all exampleDF :=
  clean_all_deterministic exampleDF exampleDF rfl

/-- C9: every column-level normalization step, and also the column-drop
and finalization steps, preserves the number of rows; only
remove_duplicates and apply_business_rules can reduce the row count. -/
theorem normalization_steps_preserve_rows (df : DF) :
    (cleanNamesDF df).rows.length = df.rows.length ∧
    (phonesDF df).rows.length = df.rows.length ∧
    (parseAddressesDF df).rows.length = df.rows.length ∧
    (booleanDF df).rows.length = df.rows.length ∧
    (missingDF df).rows.length = df.rows.length ∧
    (removeUnnecessaryDF df).rows.length = df.rows.length ∧
    (cleanupColumnsDF df).rows.length = df.rows.length ∧
    (∀ rep : Report, (finalize_data ⟨some df, rep⟩).df = some df) :=
  ⟨cleanNamesDF_rows_length df, phonesDF_rows_length df, parseAddressesDF_rows_length df,
   booleanDF_rows_length df, missingDF_rows_length df, removeUnnecessaryDF_rows_length df,
   cleanupColumnsDF_rows_length df, fun _ => rfl⟩

/-- C10: with no data loaded (self.df is None) every cleaning operation
returns without change: the table stays None and every report counter is
untouched. -/
theorem no_data_loaded_noop (rep : Report) :
    remove_duplicates ⟨none, rep⟩ = ⟨none, rep⟩ ∧
    remove_unnecessary_columns ⟨none, rep⟩ = ⟨none, rep⟩ ∧
    clean_names ⟨none, rep⟩ = ⟨none, rep⟩ ∧
    standardize_phone_numbers ⟨none, rep⟩ = ⟨none, rep⟩ ∧
    parse_addresses ⟨none, rep⟩ = ⟨none, rep⟩ ∧
    standardize_boolean_fields ⟨none, rep⟩ = ⟨none, rep⟩ ∧
    handle_missing_values ⟨none, rep⟩ = ⟨none, rep⟩ ∧
    apply_business_rules ⟨none, rep⟩ = ⟨none, rep⟩ ∧
    cleanup_columns ⟨none, rep⟩ = ⟨none, rep⟩ ∧
    finalize_data ⟨none, rep⟩ = ⟨none, rep⟩ :=
  ⟨rfl, rfl, rfl, rfl, rfl, rfl, rfl, rfl, rfl, rfl⟩

/-- C3: after apply_business_rules no surviving row has Y in any
do-not-contact column or the empty string in any phone column, every row
passing both tests is retained, and the survivors are exactly the filter
of the original rows, in their original relative order. -/
theorem apply_business_rules_spec (df : DF) :
    (applyBusinessRulesDF df).1.rows = df.rows.filter (survivesRules df) ∧
    (∀ r ∈ (applyBusinessRulesDF df).1.rows, ∀ c ∈ dncColsOf df,
      lookupCell df.cols c r ≠ some (("Y").toList)) ∧
    (∀ r ∈ (applyBusinessRulesDF df).1.rows, ∀ c ∈ phoneColsOf df,
      lookupCell df.cols c r ≠ some []) ∧
    (∀ r ∈ df.rows, survivesRules df r = true → r ∈ (applyBusinessRulesDF df).1.rows) := by
  refine ⟨applyBusinessRulesDF_rows df, ?_, ?_, ?_⟩
  · intro r hr c hc
    rw [applyBusinessRulesDF_rows] at hr
    have hs := List.of_mem_filter hr
    rw [survivesRules, Bool.and_eq_true, List.all_eq_true, List.all_eq_true] at hs
    have := hs.1 c hc
    simpa [keepDnc] using this
  · intro r hr c hc
    rw [applyBusinessRulesDF_rows] at hr
    have hs := List.of_mem_filter hr
    rw [survivesRules, Bool.and_eq_true, List.all_eq_true, List.all_eq_true] at hs
    have := hs.2 c hc
    simpa [keepPhone] using this
  · intro r hr hs
    rw [applyBusinessRulesDF_rows]
    exact List.mem_filter.mpr ⟨hr, hs⟩

/-- Witness for C3: the filter characterization at the example table. -/
theorem apply_business_rules_spec_witness :
    (applyBusinessRulesDF exampleDF).1.rows = exampleDF.rows.filter (survivesRules exampleDF) :=
  (apply_business_rules_spec exampleDF).1

/-! Evaluation of the state-level steps on a loaded state, used for the
counter-monotonicity trace. -/

theorem loadState_eq (df : DF) : loadState df = ⟨some df, ⟨df.rows.length, 0, 0, 0, 0⟩⟩ := rfl

theorem remove_duplicates_some (d : DF) (rep : Report) :
    remove_duplicates ⟨some d, rep⟩ =
      ⟨some (dedupDF d), ⟨rep.original_rows, d.rows.length - (dedupDF d).rows.length,
        rep.invalid_phones_removed, rep.do_not_contact_removed, rep.final_rows⟩⟩ := rfl

theorem remove_unnecessary_columns_some (d : DF) (rep : Report) :
    remove_unnecessary_columns ⟨some d, rep⟩ = ⟨some (removeUnnecessaryDF d), rep⟩ := rfl

theorem clean_names_some (d : DF) (rep : Report) :
    clean_names ⟨some d, rep⟩ = ⟨some (cleanNamesDF d), rep⟩ := rfl

theorem standardize_phone_numbers_some (d : DF) (rep : Report) :
    standardize_phone_numbers ⟨some d, rep⟩ = ⟨some (phonesDF d), rep⟩ := rfl

theorem parse_addresses_some (d : DF) (rep : Report) :
    parse_addresses ⟨some d, rep⟩ = ⟨some (parseAddressesDF d), rep⟩ := rfl

theorem standardize_boolean_fields_some (d : DF) (rep : Report) :
    standardize_boolean_fields ⟨some d, rep⟩ = ⟨some (booleanDF d), rep⟩ := rfl

theorem handle_missing_values_some (d : DF) (rep : Report) :
    handle_missing_values ⟨some d, rep⟩ = ⟨some (missingDF d), rep⟩ := rfl

theorem apply_business_rules_some (d : DF) (rep : Report) :
    apply_business_rules ⟨some d, rep⟩ =
      ⟨some (applyBusinessRulesDF d).1, ⟨rep.original_rows, rep.duplicates_removed,
        rep.invalid_phones_removed + (applyBusinessRulesDF d).2.2,
        rep.do_not_contact_removed + (applyBusinessRulesDF d).2.1, rep.final_rows⟩⟩ := rfl

theorem cleanup_columns_some (d : DF) (rep : Report) :
    cleanup_columns ⟨some d, rep⟩ = ⟨some (cleanupColumnsDF d), rep⟩ := rfl

theorem finalize_data_some (d : DF) (rep : Report) :
    finalize_data ⟨some d, rep⟩ = ⟨some d, ⟨rep.original_rows, rep.duplicates_removed,
      rep.invalid_phones_removed, rep.do_not_contact_removed, d.rows.length⟩⟩ := rfl

/-- Pointwise order on cleaning reports: every counter is no smaller. -/
def reportLE (r1 r2 : Report) : Prop :=
  r1.original_rows ≤ r2.original_rows ∧
  r1.duplicates_removed ≤ r2.duplicates_removed ∧
  r1.invalid_phones_removed ≤ r2.invalid_phones_removed ∧
  r1.do_not_contact_removed ≤ r2.do_not_contact_removed ∧
  r1.final_rows ≤ r2.final_rows

theorem cleanTrace_chain (df : DF) :
    List.Chain' (fun a b => reportLE a.report b.report) (cleanTrace df) := by
  simp only [cleanTrace, pipelineSteps, List.scanl_cons, List.scanl_nil, loadState_eq,
    remove_duplicates_some, remove_unnecessary_columns_some, clean_names_some,
    standardize_phone_numbers_some, parse_addresses_some, standardize_boolean_fields_some,
    handle_missing_values_some, apply_business_rules_some, cleanup_columns_some,
    finalize_data_some]
  simp only [List.singleton_append, List.cons_append, List.nil_append]
  simp only [List.chain'_cons, List.chain'_singleton, and_true]
  simp only [reportLE]
  omega

/-- C5: the report counters are cumulative.  Each per-column filter of
apply_business_rules adds its removal count to the existing counter
instead of overwriting it (stated for an arbitrary pre-existing report and
for each column of the fold); along a clean_all run every counter is
non-decreasing from state to state; and the final do-not-contact and
invalid-phone counters equal the total number of rows their rule category
removed, measured as actual row-count differences. -/
theorem cleaning_report_counters_cumulative :
    (∀ (d : DF) (rep : Report),
      (apply_business_rules ⟨some d, rep⟩).report.do_not_contact_removed =
        rep.do_not_contact_removed + (applyBusinessRulesDF d).2.1 ∧
      (apply_business_rules ⟨some d, rep⟩).report.invalid_phones_removed =
        rep.invalid_phones_removed + (applyBusinessRulesDF d).2.2) ∧
    (∀ (cols : List Str) (keep : Cell → Bool) (n : Str) (ns : List Str)
        (rows : List (List Cell)),
      (filterRowsByCols cols keep (n :: ns) rows).2 =
        (rows.length - (rows.filter (fun r => keep (lookupCell cols n r))).length) +
        (filterRowsByCols cols keep ns
          (rows.filter (fun r => keep (lookupCell cols n r)))).2) ∧
    (∀ df : DF, List.Chain' (fun a b => reportLE a.report b.report) (cleanTrace df)) ∧
    (∀ df : DF,
      (clean_all df).report.duplicates_removed + (dedupDF df).rows.length =
        (clean_all df).report.original_rows ∧
      (clean_all df).report.do_not_contact_removed +
        (filterRowsByCols (dfMiddle df).cols keepDnc (dncColsOf (dfMiddle df))
          (dfMiddle df).rows).1.length = (dfMiddle df).rows.length ∧
      (clean_all df).report.invalid_phones_removed +
        (applyBusinessRulesDF (dfMiddle df)).1.rows.length =
        (filterRowsByCols (dfMiddle df).cols keepDnc (dncColsOf (dfMiddle df))
          (dfMiddle df).rows).1.length) := by
  refine ⟨fun d rep => ⟨rfl, rfl⟩, fun cols keep n ns rows => rfl, cleanTrace_chain, fun df => ?_⟩
  have hd : (dedupDF df).rows.length ≤ df.rows.length := dedupDF_rows_le df
  have hb1 := filterRowsByCols_count (dfMiddle df).cols keepDnc (dncColsOf (dfMiddle df))
    (dfMiddle df).rows
  have hb2 := filterRowsByCols_count (dfMiddle df).cols keepPhone (phoneColsOf (dfMiddle df))
    (filterRowsByCols (dfMiddle df).cols keepDnc (dncColsOf (dfMiddle df)) (dfMiddle df).rows).1
  rw [clean_all_eq]
  rw [applyBusinessRulesDF_eq]
  dsimp only
  omega

/-! Column access through mapCol and mapCols. -/

theorem getCol_eq_some {df : DF} {c : Str} {i : Nat} (h : colIdx c df.cols = some i) :
    getCol df c = some (df.rows.map (fun r => r.getD i none)) := by
  rw [getCol, h]

theorem getCol_eq_none {df : DF} {c : Str} (h : colIdx c df.cols = none) :
    getCol df c = none := by
  rw [getCol, h]

theorem colIdx_eq_none_iff {c : Str} : ∀ {cols : List Str}, colIdx c cols = none ↔ c ∉ cols := by
  intro cols
  induction cols with
  | nil => simp [colIdx]
  | cons x xs ih =>
    rw [colIdx]
    by_cases hx : (x == c) = true
    · rw [if_pos hx]
      have : x = c := by simpa using hx
      subst this
      simp
    · rw [if_neg hx]
      have hxc : ¬ x = c := by simpa using hx
      cases h2 : colIdx c xs with
      | none =>
        simp only [Option.map_none', true_iff]
        have := ih.mp h2
        simp [List.mem_cons]
        exact ⟨fun hh => hxc hh.symm, this⟩
      | some j =>
        simp only [Option.map_some']
        constructor
        · intro hcon; exact absurd hcon (by simp)
        · intro hmem
          exfalso
          have : c ∈ xs := by
            have := ih.mpr
            by_cases hm : c ∈ xs
            · exact hm
            · exact absurd (ih.mpr hm) (by simp [h2])
          exact hmem (List.mem_cons_of_mem _ this)

theorem aligned_mapCol (df : DF) (c : Str) (f : Cell → Cell) (hA : Aligned df) :
    Aligned (mapCol df c f) := by
  rw [mapCol]
  cases hx : colIdx c df.cols with
  | none => exact hA
  | some i =>
    intro r hr
    simp only [List.mem_map] at hr
    obtain ⟨r0, hr0, rfl⟩ := hr
    simpa [List.length_set] using hA r0 hr0

theorem getCol_mapCol_self (df : DF) (c : Str) (f : Cell → Cell) (hA : Aligned df) :
    getCol (mapCol df c f) c = (getCol df c).map (List.map f) := by
  cases hx : colIdx c df.cols with
  | none =>
    rw [mapCol, hx]
    rw [getCol_eq_none hx]
    rfl
  | some i =>
    rw [mapCol, hx]
    dsimp only
    rw [getCol, getCol]
    dsimp only
    rw [hx]
    dsimp only [Option.map_some']
    rw [List.map_map, List.map_map]
    congr 1
    apply List.map_congr_left
    intro r hr
    have hi : i < r.length := by
      rw [hA r hr]
      exact colIdx_lt hx
    simp only [Function.comp_apply]
    exact getD_set_self r i _ hi

theorem getCol_mapCol_ne (df : DF) (c c' : Str) (f : Cell → Cell) (hne : c' ≠ c) :
    getCol (mapCol df c f) c' = getCol df c' := by
  cases hx : colIdx c df.cols with
  | none => rw [mapCol, hx]
  | some i =>
    rw [mapCol, hx]
    dsimp only
    cases hy : colIdx c' df.cols with
    | none =>
      rw [getCol, getCol]
      dsimp only
      rw [hy]
    | some j =>
      rw [getCol, getCol]
      dsimp only
      rw [hy]
      have hij : i ≠ j := by
        intro hcon
        subst hcon
        have h1 := colIdx_getD hx
        have h2 := colIdx_getD hy
        exact hne (h2.symm.trans h1)
      dsimp only
      simp only [Option.some.injEq]
      rw [List.map_map]
      apply List.map_congr_left
      intro r hr
      simp only [Function.comp_apply]
      exact getD_set_ne r _ hij

theorem aligned_mapCols (ns : List Str) : ∀ (df : DF) (f : Cell → Cell),
    Aligned df → Aligned (mapCols df ns f) := by
  induction ns with
  | nil => intro df f hA; exact hA
  | cons n ns ih =>
    intro df f hA
    exact ih (mapCol df n f) f (aligned_mapCol df n f hA)

theorem getCol_mapCols_not_mem (ns : List Str) : ∀ (df : DF) (c : Str) (f : Cell → Cell),
    c ∉ ns → getCol (mapCols df ns f) c = getCol df c := by
  induction ns with
  | nil => intro df c f _; rfl
  | cons n ns ih =>
    intro df c f hc
    show getCol (mapCols (mapCol df n f) ns f) c = getCol df c
    rw [ih (mapCol df n f) c f (fun h => hc (List.mem_cons_of_mem _ h))]
    exact getCol_mapCol_ne df n c f (fun h => hc (h ▸ List.mem_cons_self n ns))

theorem getCol_mapCols_mem (ns : List Str) : ∀ (df : DF) (c : Str) (f : Cell → Cell),
    ns.Nodup → c ∈ ns → Aligned df →
    getCol (mapCols df ns f) c = (getCol df c).map (List.map f) := by
  induction ns with
  | nil => intro df c f _ hc; simp at hc
  | cons n ns ih =>
    intro df c f hnd hc hA
    show getCol (mapCols (mapCol df n f) ns f) c = (getCol df c).map (List.map f)
    by_cases he : c = n
    · subst he
      have hnotin : c ∉ ns := (List.nodup_cons.mp hnd).1
      rw [getCol_mapCols_not_mem ns (mapCol df c f) c f hnotin]
      exact getCol_mapCol_self df c f hA
    · have hcs : c ∈ ns := by
        cases List.mem_cons.mp hc with
        | inl h => exact absurd h he
        | inr h => exact h
      rw [ih (mapCol df n f) c f (List.nodup_cons.mp hnd).2 hcs (aligned_mapCol df n f hA)]
      rw [getCol_mapCol_ne df n c f he]

/-! The phone-number step: the faithful step equals its specification. -/

theorem leadsWith_eq_append : ∀ (pat s : Str), leadsWith pat s = true →
    s = pat ++ s.drop pat.length := by
  intro pat
  induction pat with
  | nil => intro s _; simp
  | cons a as ih =>
    intro s h
    cases s with
    | nil => simp [leadsWith] at h
    | cons b bs =>
      rw [leadsWith, Bool.and_eq_true] at h
      have hab : a = b := by simpa using h.1
      subst hab
      have := ih bs h.2
      simp only [List.length_cons, List.cons_append, List.drop_succ_cons]
      exact congrArg (a :: ·) this

theorem filter_digits_replaceSub (pat : Str) (hne : pat ≠ [])
    (hnd : ∀ ch ∈ pat, ch.isDigit = false) :
    ∀ (n : Nat) (s : Str), s.length ≤ n →
    (replaceSub pat [] s).filter Char.isDigit = s.filter Char.isDigit := by
  intro n
  induction n with
  | zero =>
    intro s hs
    have : s = [] := List.length_eq_zero.mp (Nat.le_zero.mp hs)
    subst this
    rw [replaceSub]
  | succ n ih =>
    intro s hs
    cases s with
    | nil => rw [replaceSub]
    | cons c rest =>
      rw [replaceSub]
      split
      · rename_i hcond
        rw [List.nil_append]
        have hp : 1 ≤ pat.length := by
          cases hpat : pat with
          | nil => exact absurd hpat hne
          | cons x xs => simp
        have hlen : ((c :: rest).drop pat.length).length ≤ n := by
          simp only [List.length_drop, List.length_cons]
          simp only [List.length_cons] at hs
          omega
        rw [ih _ hlen]
        conv_rhs => rw [leadsWith_eq_append pat (c :: rest) hcond.2]
        rw [List.filter_append]
        have hnil : pat.filter Char.isDigit = [] :=
          List.filter_eq_nil_iff.mpr (fun a ha => by simp [hnd a ha])
        rw [hnil, List.nil_append]
      · have hlen : rest.length ≤ n := by
          simp only [List.length_cons] at hs
          omega
        rw [List.filter_cons, List.filter_cons]
        cases hc : c.isDigit with
        | true => simp only [if_pos rfl, ih rest hlen]
        | false => simp only [Bool.false_eq_true, if_neg, ih rest hlen]

/-- The specification of the per-entry phone normalization, as the claim
states it: keep only the digit characters; exactly ten digits are
hyphenated 3-3-4, every other entry becomes the empty string. -/
def phoneSpecCell (c : Cell) : Cell :=
  let d := (cellAsStr c).filter Char.isDigit
  if d.length = 10 then some (fmtPhone d) else some []

theorem phoneCellStep_eq_spec (c : Cell) : phoneCellStep c = phoneSpecCell c := by
  simp only [phoneCellStep, phoneSpecCell]
  have h2 : ∀ s : Str, (replaceSub (("nan--").toList) [] s).filter Char.isDigit =
      s.filter Char.isDigit :=
    fun s => filter_digits_replaceSub _ (by decide) (by decide) s.length s (Nat.le_refl _)
  have h1 : ∀ s : Str, (replaceSub (("Na--").toList) [] s).filter Char.isDigit =
      s.filter Char.isDigit :=
    fun s => filter_digits_replaceSub _ (by decide) (by decide) s.length s (Nat.le_refl _)
  rw [h2, h1]
  by_cases hd : ((cellAsStr c).filter Char.isDigit).length = 10
  · rw [if_pos hd, if_pos hd]
    rw [if_neg (by simp [hd])]
  · rw [if_neg hd, if_neg hd]
    by_cases he : (cellAsStr c).filter Char.isDigit = []
    · rw [if_neg (fun hcon => hcon.2 he)]
      rw [he]
    · rw [if_pos ⟨hd, he⟩]

/-- C2: after standardize_phone_numbers, the values of each phone column
are exactly the entrywise phone specification of the old values: the
digit characters hyphenated 3-3-4 when they number exactly ten, the empty
string otherwise. -/
theorem standardize_phone_numbers_spec (df : DF) (c : Str) (hA : Aligned df)
    (hc : c ∈ phoneColNames) (hin : c ∈ df.cols) :
    getCol (phonesDF df) c = (getCol df c).map (List.map phoneSpecCell) := by
  rw [phonesDF]
  have hnodup : (phoneColNames.filter (fun n => df.cols.contains n)).Nodup :=
    List.Nodup.filter _ (by decide)
  have hmem : c ∈ phoneColNames.filter (fun n => df.cols.contains n) := by
    rw [List.mem_filter]
    exact ⟨hc, by simpa [List.contains] using List.elem_iff.mpr hin⟩
  rw [getCol_mapCols_mem _ df c phoneCellStep hnodup hmem hA]
  have : phoneCellStep = phoneSpecCell := funext phoneCellStep_eq_spec
  rw [this]

/-- Witness for C2 at the example table. -/
theorem standardize_phone_numbers_spec_witness :
    getCol (phonesDF exampleDF) (("Phone_Number").toList) =
      (getCol exampleDF (("Phone_Number").toList)).map (List.map phoneSpecCell) :=
  standardize_phone_numbers_spec exampleDF (("Phone_Number").toList)
    (by decide) (by decide) (by decide)

/-! Column access through setColVals. -/

theorem map_getD_zipWith_set (i : Nat) : ∀ (rows : List (List Cell)) (vs : List Cell),
    rows.length = vs.length → (∀ r ∈ rows, i < r.length) →
    (List.zipWith (fun r v => r.set i v) rows vs).map (fun r => r.getD i none) = vs := by
  intro rows
  induction rows with
  | nil =>
    intro vs h _
    cases vs with
    | nil => rfl
    | cons v vt => simp at h
  | cons r rs ih =>
    intro vs h hl
    cases vs with
    | nil => simp at h
    | cons v vt =>
      simp only [List.zipWith_cons_cons, List.map_cons]
      rw [getD_set_self _ _ _ (hl r (List.mem_cons_self _ _))]
      rw [ih vt (by simpa using h) (fun r2 hr2 => hl r2 (List.mem_cons_of_mem _ hr2))]

theorem map_getD_zipWith_set_ne {i j : Nat} (hij : i ≠ j) :
    ∀ (rows : List (List Cell)) (vs : List Cell), rows.length = vs.length →
    (List.zipWith (fun r v => r.set i v) rows vs).map (fun r => r.getD j none) =
      rows.map (fun r => r.getD j none) := by
  intro rows
  induction rows with
  | nil => intro vs _; rfl
  | cons r rs ih =>
    intro vs h
    cases vs with
    | nil => simp at h
    | cons v vt =>
      simp only [List.zipWith_cons_cons, List.map_cons]
      rw [getD_set_ne _ _ hij]
      rw [ih vt (by simpa using h)]

theorem map_getD_zipWith_append (n : Nat) : ∀ (rows : List (List Cell)) (vs : List Cell),
    rows.length = vs.length → (∀ r ∈ rows, r.length = n) →
    (List.zipWith (fun r v => r ++ [v]) rows vs).map (fun r => r.getD n none) = vs := by
  intro rows
  induction rows with
  | nil =>
    intro vs h _
    cases vs with
    | nil => rfl
    | cons v vt => simp at h
  | cons r rs ih =>
    intro vs h hl
    cases vs with
    | nil => simp at h
    | cons v vt =>
      simp only [List.zipWith_cons_cons, List.map_cons]
      have hr : r.length = n := hl r (List.mem_cons_self _ _)
      rw [← hr, getD_append_len]
      rw [hr]
      rw [ih vt (by simpa using h) (fun r2 hr2 => hl r2 (List.mem_cons_of_mem _ hr2))]

theorem map_getD_zipWith_append_lt {j : Nat} :
    ∀ (rows : List (List Cell)) (vs : List Cell), rows.length = vs.length →
    (∀ r ∈ rows, j < r.length) →
    (List.zipWith (fun r v => r ++ [v]) rows vs).map (fun r => r.getD j none) =
      rows.map (fun r => r.getD j none) := by
  intro rows
  induction rows with
  | nil => intro vs _ _; rfl
  | cons r rs ih =>
    intro vs h hl
    cases vs with
    | nil => simp at h
    | cons v vt =>
      simp only [List.zipWith_cons_cons, List.map_cons]
      rw [getD_append_lt _ _ _ (hl r (List.mem_cons_self _ _))]
      rw [ih vt (by simpa using h) (fun r2 hr2 => hl r2 (List.mem_cons_of_mem _ hr2))]

theorem colIdx_append_of_none {c : Str} : ∀ {cols : List Str} (l : List Str),
    colIdx c cols = none →
    colIdx c (cols ++ l) = (colIdx c l).map (fun i => i + cols.length) := by
  intro cols
  induction cols with
  | nil =>
    intro l _
    simp only [List.nil_append, List.length_nil]
    cases colIdx c l with
    | none => rfl
    | some i => simp
  | cons x xs ih =>
    intro l h
    rw [colIdx] at h
    by_cases hx : (x == c) = true
    · rw [if_pos hx] at h; simp at h
    · rw [if_neg hx] at h
      have hnone : colIdx c xs = none := by
        cases h2 : colIdx c xs with
        | none => rfl
        | some j => rw [h2] at h; simp at h
      show colIdx c (x :: (xs ++ l)) = _
      rw [colIdx, if_neg hx, ih l hnone]
      cases colIdx c l with
      | none => rfl
      | some i =>
        simp only [Option.map_some', List.length_cons]
        exact congrArg some (by omega)

theorem colIdx_append_of_some {c : Str} : ∀ {cols : List Str} {i : Nat} (l : List Str),
    colIdx c cols = some i → colIdx c (cols ++ l) = some i := by
  intro cols
  induction cols with
  | nil => intro i l h; simp [colIdx] at h
  | cons x xs ih =>
    intro i l h
    rw [colIdx] at h
    show colIdx c (x :: (xs ++ l)) = some i
    rw [colIdx]
    by_cases hx : (x == c) = true
    · rw [if_pos hx] at h
      rw [if_pos hx]
      exact h
    · rw [if_neg hx] at h
      rw [if_neg hx]
      cases h2 : colIdx c xs with
      | none => rw [h2] at h; simp at h
      | some j =>
        rw [h2] at h
        rw [ih l h2]
        simpa using h

theorem aligned_rows_len {df : DF} (hA : Aligned df) {i : Nat}
    (hi : i < df.cols.length) : ∀ r ∈ df.rows, i < r.length :=
  fun r hr => (hA r hr).symm ▸ hi

theorem getCol_setColVals_self (df : DF) (c : Str) (vs : List Cell)
    (hA : Aligned df) (hl : vs.length = df.rows.length) :
    getCol (setColVals df c vs) c = some vs := by
  cases hx : colIdx c df.cols with
  | some i =>
    rw [setColVals, hx]
    dsimp only
    rw [getCol]
    dsimp only
    rw [hx]
    dsimp only
    rw [map_getD_zipWith_set i df.rows vs hl.symm (aligned_rows_len hA (colIdx_lt hx))]
  | none =>
    rw [setColVals, hx]
    dsimp only
    rw [getCol]
    dsimp only
    rw [colIdx_append_of_none [c] hx]
    have hc : colIdx c [c] = some 0 := by
      rw [colIdx]
      rw [if_pos (by simp)]
    rw [hc]
    simp only [Option.map_some', Nat.zero_add]
    rw [map_getD_zipWith_append df.cols.length df.rows vs hl.symm hA]

theorem getCol_setColVals_ne (df : DF) (c c' : Str) (vs : List Cell)
    (hA : Aligned df) (hl : vs.length = df.rows.length) (hne : c' ≠ c) :
    getCol (setColVals df c vs) c' = getCol df c' := by
  cases hx : colIdx c df.cols with
  | some i =>
    rw [setColVals, hx]
    dsimp only
    rw [getCol, getCol]
    dsimp only
    cases hy : colIdx c' df.cols with
    | none => rfl
    | some j =>
      have hij : i ≠ j := by
        intro hcon
        subst hcon
        exact hne ((colIdx_getD hy).symm.trans (colIdx_getD hx))
      dsimp only
      rw [map_getD_zipWith_set_ne hij df.rows vs hl.symm]
  | none =>
    rw [setColVals, hx]
    dsimp only
    rw [getCol, getCol]
    dsimp only
    cases hy : colIdx c' df.cols with
    | none =>
      rw [colIdx_append_of_none [c] hy]
      have hc : colIdx c' [c] = none := by
        rw [colIdx]
        rw [if_neg (by simpa using fun hcon : c = c' => hne hcon.symm)]
        rfl
      rw [hc]
      rfl
    | some j =>
      rw [colIdx_append_of_some [c] hy]
      dsimp only
      rw [map_getD_zipWith_append_lt df.rows vs hl.symm
        (aligned_rows_len hA (colIdx_lt hy))]

theorem zipWith_set_lengths (i : Nat) (n : Nat) : ∀ (rows : List (List Cell)) (vs : List Cell),
    (∀ r ∈ rows, r.length = n) →
    ∀ r2 ∈ List.zipWith (fun r v => r.set i v) rows vs, r2.length = n := by
  intro rows
  induction rows with
  | nil => intro vs _ r2 hr2; simp at hr2
  | cons r rs ih =>
    intro vs hl r2 hr2
    cases vs with
    | nil => simp at hr2
    | cons v vt =>
      simp only [List.zipWith_cons_cons, List.mem_cons] at hr2
      cases hr2 with
      | inl h => rw [h, List.length_set]; exact hl r (List.mem_cons_self _ _)
      | inr h => exact ih vt (fun r3 hr3 => hl r3 (List.mem_cons_of_mem _ hr3)) r2 h

theorem zipWith_append_lengths (n : Nat) : ∀ (rows : List (List Cell)) (vs : List Cell),
    (∀ r ∈ rows, r.length = n) →
    ∀ r2 ∈ List.zipWith (fun r v => r ++ [v]) rows vs, r2.length = n + 1 := by
  intro rows
  induction rows with
  | nil => intro vs _ r2 hr2; simp at hr2
  | cons r rs ih =>
    intro vs hl r2 hr2
    cases vs with
    | nil => simp at hr2
    | cons v vt =>
      simp only [List.zipWith_cons_cons, List.mem_cons] at hr2
      cases hr2 with
      | inl h =>
        rw [h, List.length_append, List.length_singleton, hl r (List.mem_cons_self _ _)]
      | inr h => exact ih vt (fun r3 hr3 => hl r3 (List.mem_cons_of_mem _ hr3)) r2 h

theorem aligned_setColVals (df : DF) (c : Str) (vs : List Cell)
    (hA : Aligned df) (hl : vs.length = df.rows.length) :
    Aligned (setColVals df c vs) := by
  cases hx : colIdx c df.cols with
  | some i =>
    rw [setColVals, hx]
    intro r hr
    dsimp only at hr ⊢
    exact zipWith_set_lengths i df.cols.length df.rows vs hA r hr
  | none =>
    rw [setColVals, hx]
    intro r hr
    dsimp only at hr ⊢
    rw [List.length_append, List.length_singleton]
    exact zipWith_append_lengths df.cols.length df.rows vs hA r hr

/-! parse_addresses: counterexample and amended specification. -/

/-- A table with an Address column none of whose values contains a comma. -/
def noCommaDF : DF :=
  { cols := [("Address").toList],
    rows := [[some (("123 Main St").toList)]] }

/-- C6 counterexample: on a table whose single address value contains no
comma, parse_addresses adds no Street_Address, State or Zip_Code column
and leaves the table unchanged, contradicting the claim that the three
columns are always added. -/
theorem parse_addresses_counterexample :
    addrColNames.find? (fun c => noCommaDF.cols.contains c) = some addressN ∧
    getCol (parseAddressesDF noCommaDF) streetN = none ∧
    getCol (parseAddressesDF noCommaDF) stateN = none ∧
    getCol (parseAddressesDF noCommaDF) zipN = none ∧
    parseAddressesDF noCommaDF = noCommaDF := by
  refine ⟨by decide, ?_, ?_, ?_, ?_⟩ <;> decide

/-- C6 amended: when the comma-split of the address column yields at
least two columns (some address contains a comma), parse_addresses sets
Street_Address to the trimmed first parts, State to the trimmed second
parts (NaN where a row has no second part), and Zip_Code to the trimmed
third parts when a third column exists and to the empty string for every
row otherwise; every other column and the row count are unchanged. -/
theorem parse_addresses_amended (df : DF) (ac : Str) (hA : Aligned df)
    (hfind : addrColNames.find? (fun c => df.cols.contains c) = some ac)
    (hmax : 2 ≤ maxParts df ac) :
    getCol (parseAddressesDF df) streetN = some (streetVals df ac) ∧
    getCol (parseAddressesDF df) stateN = some (stateVals df ac) ∧
    getCol (parseAddressesDF df) zipN = some (zipVals df ac) ∧
    (∀ c2 : Str, c2 ≠ streetN → c2 ≠ stateN → c2 ≠ zipN →
      getCol (parseAddressesDF df) c2 = getCol df c2) ∧
    (parseAddressesDF df).rows.length = df.rows.length := by
  have hparse : parseAddressesDF df =
      setColVals (setColVals (setColVals df streetN (streetVals df ac))
        stateN (stateVals df ac)) zipN (zipVals df ac) := by
    rw [parseAddressesDF, hfind]
    dsimp only
    rw [if_pos hmax]
  have hsl : (streetVals df ac).length = df.rows.length := streetVals_length df ac
  have h1A : Aligned (setColVals df streetN (streetVals df ac)) :=
    aligned_setColVals df streetN _ hA hsl
  have h1r : (setColVals df streetN (streetVals df ac)).rows.length = df.rows.length :=
    setColVals_rows_length df streetN _ hsl
  have htl : (stateVals df ac).length =
      (setColVals df streetN (streetVals df ac)).rows.length := by
    rw [stateVals_length, h1r]
  have h2A : Aligned (setColVals (setColVals df streetN (streetVals df ac))
      stateN (stateVals df ac)) :=
    aligned_setColVals _ stateN _ h1A htl
  have h2r : (setColVals (setColVals df streetN (streetVals df ac))
      stateN (stateVals df ac)).rows.length = df.rows.length := by
    rw [setColVals_rows_length _ stateN _ htl, h1r]
  have hzl : (zipVals df ac).length =
      (setColVals (setColVals df streetN (streetVals df ac))
        stateN (stateVals df ac)).rows.length := by
    rw [zipVals_length, h2r]
  refine ⟨?_, ?_, ?_, ?_, ?_⟩
  · rw [hparse]
    rw [getCol_setColVals_ne _ zipN streetN _ h2A hzl (by decide)]
    rw [getCol_setColVals_ne _ stateN streetN _ h1A htl (by decide)]
    exact getCol_setColVals_self df streetN _ hA hsl
  · rw [hparse]
    rw [getCol_setColVals_ne _ zipN stateN _ h2A hzl (by decide)]
    exact getCol_setColVals_self _ stateN _ h1A htl
  · rw [hparse]
    exact getCol_setColVals_self _ zipN _ h2A hzl
  · intro c2 hs ht hz
    rw [hparse]
    rw [getCol_setColVals_ne _ zipN c2 _ h2A hzl hz]
    rw [getCol_setColVals_ne _ stateN c2 _ h1A htl ht]
    exact getCol_setColVals_ne df streetN c2 _ hA hsl hs
  · rw [hparse]
    rw [setColVals_rows_length _ zipN _ hzl, h2r]

/-- A table whose single address value has two commas, for the C6 witness. -/
def commaDF : DF :=
  { cols := [("Name").toList, ("Address").toList],
    rows := [[some (("Ann").toList), some (("1 A St, NY, 10001").toList)]] }

/-- Witness for the amended C6 at a concrete table with a full address. -/
theorem parse_addresses_amended_witness :
    getCol (parseAddressesDF commaDF) streetN = some (streetVals commaDF addressN) ∧
    getCol (parseAddressesDF commaDF) stateN = some (stateVals commaDF addressN) ∧
    getCol (parseAddressesDF commaDF) zipN = some (zipVals commaDF addressN) ∧
    (∀ c2 : Str, c2 ≠ streetN → c2 ≠ stateN → c2 ≠ zipN →
      getCol (parseAddressesDF commaDF) c2 = getCol commaDF c2) ∧
    (parseAddressesDF commaDF).rows.length = commaDF.rows.length :=
  parse_addresses_amended commaDF addressN (by decide) (by decide) (by decide)

/-! The external-collaborator wrappers return their failure value exactly
when the wrapped call raises. -/

/-- Whether an abstracted library call raises. -/
def exceptRaised {α : Type} : Except Unit α → Bool
  | .error _ => true
  | .ok _ => false

/-- C7: fetch_webpage returns None iff the HTTP request raises (requests.get
raises or raise_for_status raises on a 4xx or 5xx status); save_to_csv
returns False iff writing the CSV raises; load_data returns False iff the
reader chosen by the extension raises or the lower-cased extension is
neither .xlsx nor .csv. -/
theorem wrapper_failure_iff :
    (∀ resp : Except Unit HttpResponse,
      fetch_webpage resp = none ↔ httpRaised resp = true) ∧
    (∀ w : Except Unit Unit, save_to_csv w = false ↔ exceptRaised w = true) ∧
    (∀ (p : Str) (rx rc : Except Unit DF) (s : CState),
      (load_data p rx rc s).2 = false ↔
        ((lowerS (extOf p) = (".xlsx").toList ∧ exceptRaised rx = true) ∨
         (lowerS (extOf p) = (".csv").toList ∧ exceptRaised rc = true) ∨
         (lowerS (extOf p) ≠ (".xlsx").toList ∧ lowerS (extOf p) ≠ (".csv").toList))) := by
  have hne : ((".xlsx").toList : Str) ≠ (".csv").toList := by decide
  refine ⟨?_, ?_, ?_⟩
  · intro resp
    cases resp with
    | error e => simp [fetch_webpage, httpRaised]
    | ok r =>
      rw [fetch_webpage, httpRaised]
      by_cases h : 400 ≤ r.status ∧ r.status < 600
      · rw [if_pos h]
        simp [h.1, h.2]
      · rw [if_neg h]
        simp only [Bool.and_eq_true, decide_eq_true_eq]
        constructor
        · intro hcon; exact absurd hcon (by simp)
        · intro hcon; exact absurd hcon h
  · intro w
    cases w <;> simp [save_to_csv, exceptRaised]
  · intro p rx rc s
    rw [load_data.eq_def]
    dsimp only
    by_cases h1 : lowerS (extOf p) = (".xlsx").toList
    · rw [if_pos h1]
      cases rx with
      | error e => simp [h1, hne, exceptRaised]
      | ok d => simp [h1, hne, exceptRaised, h1 ▸ hne]
    · rw [if_neg h1]
      by_cases h2 : lowerS (extOf p) = (".csv").toList
      · rw [if_pos h2]
        cases rc with
        | error e => simp [h1, h2, exceptRaised]
        | ok d => simp [h1, h2, exceptRaised]
      · rw [if_neg h2]
        constructor
        · intro _
          exact Or.inr (Or.inr ⟨h1, h2⟩)
        · intro _
          rfl

/-- Witness for C7: the load wrapper fails on an unsupported extension. -/
theorem wrapper_failure_iff_witness :
    (load_data (("data.txt").toList) (Except.ok exampleDF) (Except.ok exampleDF)
      ⟨none, reportInit⟩).2 = false ↔
      ((lowerS (extOf (("data.txt").toList)) = (".xlsx").toList ∧
          exceptRaised (Except.ok exampleDF) = true) ∨
       (lowerS (extOf (("data.txt").toList)) = (".csv").toList ∧
          exceptRaised (Except.ok exampleDF) = true) ∨
       (lowerS (extOf (("data.txt").toList)) ≠ (".xlsx").toList ∧
          lowerS (extOf (("data.txt").toList)) ≠ (".csv").toList)) :=
  wrapper_failure_iff.2.2 (("data.txt").toList) (Except.ok exampleDF)
    (Except.ok exampleDF) ⟨none, reportInit⟩

end DataPortfolio
